import Mathlib

/-
Verification of the `react-wheel-select` wheel picker component
(`src/components/WheelSelect.tsx`) against its natural-language
specification.

The component's pure decision logic is shallowly embedded below:
geometry is modelled with rationals, the React `useState` pieces become
an explicit record `WSState`, and the observable callbacks
(`onOpen`, `onClose`, `onChange`, `onActiveChange`, ...) become an
explicit event list returned by each operation.
-/

/-- A selectable option of the wheel select, after `WheelSelectOption` in
WheelSelect.tsx: a string value, a display label and a disabled flag.
(The optional `data` bag carries no behaviour and is omitted.) -/
structure WheelOption where
  value : String
  label : String
  disabled : Bool
deriving DecidableEq, Repr

/-- Behaviour configuration after `WheelSelectBehavior` (with the defaults
of `defaultBehavior` already merged in, so every field is present). -/
structure WSBehavior where
  closeOnOutsideClick : Bool
  closeOnEscape : Bool
  closeOnSelect : Bool
  scrollDebounceMs : Nat
  keyboardNavigation : Bool
  focusTriggerOnClose : Bool
deriving DecidableEq, Repr

/-- A measured screen rectangle (`DOMRect` of the trigger). -/
structure TriggerRect where
  left : ℚ
  top : ℚ
  width : ℚ
  height : ℚ
deriving DecidableEq, Repr

/-- The component state: the `useState` cells (`isOpen`, `activeIndex`,
`triggerRect`) together with the mutable refs that carry behaviour
(`initialScrollIndexRef`, the hidden native select's current value, and
`scrollTimeoutRef` as an abstract pending-timer id). -/
structure WSState where
  isOpen : Bool
  activeIndex : Nat
  triggerRect : Option TriggerRect
  initialScrollIndex : Option Nat
  nativeSelectValue : Option String
  pendingTimer : Option Nat
deriving DecidableEq, Repr

/-- Externally observable effects of one operation: the callbacks of
`WheelSelectCallbacks` plus the two DOM actions the handlers perform
(smooth `scrollIntoView` of an item, focusing the trigger). -/
inductive WSEvent where
  | onOpen : WSEvent
  | onClose : WSEvent
  | changeExternal (value : String) : WSEvent
  | changeNotify (value : String) (option : WheelOption) : WSEvent
  | activeChange (index : Nat) (option : WheelOption) : WSEvent
  | scrollIntoView (index : Nat) : WSEvent
  | focusTrigger : WSEvent
deriving DecidableEq, Repr

/-- JavaScript `Array.prototype.findIndex`: index of the first match,
`-1` when none matches. -/
def findIndexJS (p : WheelOption → Bool) (l : List WheelOption) : Int :=
  match l.findIdx? p with
  | some i => (i : Int)
  | none => -1

/-- `openPicker` (WheelSelect.tsx lines 459-470): no-op when the widget is
disabled; otherwise snapshot the trigger rectangle (when the trigger ref is
non-null, modelled by `measuredRect`), seed the active index and the
initial scroll index from the current external value (index `0` when the
value is absent), open, and fire `onOpen`. -/
def openPicker (disabled : Bool) (options : List WheelOption) (value : String)
    (measuredRect : Option TriggerRect) (st : WSState) : WSState × List WSEvent :=
  if disabled then (st, [])
  else
    let st0 := match measuredRect with
      | some r => { st with triggerRect := some r }
      | none => st
    let idx := findIndexJS (fun o => o.value == value) options
    let targetIndex : Nat := if idx != -1 then idx.toNat else 0
    ({ st0 with initialScrollIndex := some targetIndex,
                activeIndex := targetIndex,
                isOpen := true }, [WSEvent.onOpen])

/-- `closePicker` (lines 473-479): close, optionally focus the trigger,
fire `onClose`.  (It does not touch `scrollTimeoutRef`.) -/
def closePicker (behavior : WSBehavior) (st : WSState) : WSState × List WSEvent :=
  ({ st with isOpen := false },
   (if behavior.focusTriggerOnClose then [WSEvent.focusTrigger] else [])
     ++ [WSEvent.onClose])

/-- `commitSelection` (lines 482-500): find the option with the committed
value; bail out silently when it is missing or disabled; otherwise fire the
external `onChange` and the `onChange` notification, mirror the value onto
the hidden native select, and (per `closeOnSelect`) close. -/
def commitSelection (options : List WheelOption) (behavior : WSBehavior)
    (st : WSState) (newValue : String) : WSState × List WSEvent :=
  match options.find? (fun o => o.value == newValue) with
  | none => (st, [])
  | some option =>
    if option.disabled then (st, [])
    else
      let st1 := { st with nativeSelectValue := some newValue }
      let evs := [WSEvent.changeExternal newValue, WSEvent.changeNotify newValue option]
      if behavior.closeOnSelect then
        ({ st1 with isOpen := false },
         evs ++ (if behavior.focusTriggerOnClose then [WSEvent.focusTrigger] else [])
             ++ [WSEvent.onClose])
      else (st1, evs)

/-- The unmount cleanup effect (lines 443-449): `clearTimeout` on any
pending scroll-debounce timer. -/
def unmountCleanup (st : WSState) : WSState :=
  { st with pendingTimer := none }

/-- `toggle` of the imperative handle (line 677):
`isOpen ? closePicker() : openPicker()`. -/
def togglePicker (disabled : Bool) (options : List WheelOption) (value : String)
    (measuredRect : Option TriggerRect) (behavior : WSBehavior) (st : WSState) :
    WSState × List WSEvent :=
  if st.isOpen then closePicker behavior st
  else openPicker disabled options value measuredRect st

/-- `scrollToIndex` (lines 668-671): smooth-scroll the indexed item into
view when its ref exists (`itemRefs.current[index]?.`), touching no state.
`itemCount` is the number of rendered item refs. -/
def scrollToIndexOp (itemCount : Nat) (st : WSState) (index : Nat) :
    WSState × List WSEvent :=
  if index < itemCount then (st, [WSEvent.scrollIntoView index]) else (st, [])

/-- `options[i]?.disabled` coerced to a boolean, as the keyboard handler's
loop conditions evaluate it (undefined is falsy). -/
def disabledAt (options : List WheelOption) (i : Nat) : Bool :=
  match options[i]? with
  | some o => o.disabled
  | none => false

/-- The ArrowDown skip loop of `handlePickerKeyDown` (lines 602-607):
`while (newIndex < options.length && options[newIndex]?.disabled) newIndex++`. -/
def skipDisabledDown (options : List WheelOption) (newIndex : Nat) : Nat :=
  if h : newIndex < options.length ∧ disabledAt options newIndex = true then
    skipDisabledDown options (newIndex + 1)
  else newIndex
termination_by options.length - newIndex
decreasing_by
  omega

/-- The ArrowDown branch of `handlePickerKeyDown` (lines 600-612) as the
`setActiveIndex` updater: start at `prev + 1`, skip disabled options, keep
`prev` when the skip runs past the end. -/
def arrowDownNext (options : List WheelOption) (prev : Nat) : Nat :=
  let newIndex := skipDisabledDown options (prev + 1)
  if newIndex ≥ options.length then prev else newIndex

/-- The ArrowUp skip loop of `handlePickerKeyDown` (lines 588-593):
`while (newIndex >= 0 && options[newIndex]?.disabled) newIndex--`
(JavaScript indices, hence `Int`). -/
def skipDisabledUp (options : List WheelOption) (newIndex : Int) : Int :=
  if h : 0 ≤ newIndex ∧ disabledAt options newIndex.toNat = true then
    skipDisabledUp options (newIndex - 1)
  else newIndex
termination_by (newIndex + 1).toNat
decreasing_by
  omega

/-- The ArrowUp branch of `handlePickerKeyDown` (lines 586-598) as the
`setActiveIndex` updater: start at `prev - 1`, skip disabled options, keep
`prev` when the skip runs below `0`. -/
def arrowUpNext (options : List WheelOption) (prev : Nat) : Nat :=
  let newIndex := skipDisabledUp options ((prev : Int) - 1)
  if newIndex < 0 then prev else newIndex.toNat

/-- Concrete option list `[A, B (disabled), C]` used by the spec's
examples and as witness input. -/
def exampleOptions : List WheelOption :=
  [⟨"a", "A", false⟩, ⟨"b", "B", true⟩, ⟨"c", "C", false⟩]

/-- The defaults of `defaultBehavior` (lines 282-290). -/
def defaultBehaviorM : WSBehavior :=
  { closeOnOutsideClick := true
    closeOnEscape := true
    closeOnSelect := true
    scrollDebounceMs := 50
    keyboardNavigation := true
    focusTriggerOnClose := true }

/-- A concrete open state used as witness input. -/
def exampleState : WSState :=
  { isOpen := true, activeIndex := 0, triggerRect := none,
    initialScrollIndex := none, nativeSelectValue := none, pendingTimer := none }

/-- A concrete closed state used as witness input. -/
def exampleClosedState : WSState :=
  { isOpen := false, activeIndex := 0, triggerRect := none,
    initialScrollIndex := none, nativeSelectValue := none, pendingTimer := none }

/-- A concrete open state with a pending scroll-debounce timer. -/
def pendingState : WSState :=
  { isOpen := true, activeIndex := 0, triggerRect := none,
    initialScrollIndex := none, nativeSelectValue := none, pendingTimer := some 7 }

/-- A concrete measured trigger rectangle used as witness input. -/
def exampleRect : TriggerRect :=
  { left := 0, top := 0, width := 100, height := 40 }

/-- A rendered item's measured geometry (`getBoundingClientRect`): viewport
top and height. -/
structure ItemRect where
  top : ℚ
  height : ℚ
deriving DecidableEq, Repr

/-- Distance of an item's vertical center from the wheel viewport's
vertical center, as computed in `calculateActiveFromScroll`
(lines 542-544). -/
def itemCenterDist (wheelCenter : ℚ) (r : ItemRect) : ℚ :=
  |r.top + r.height / 2 - wheelCenter|

/-- The `itemRefs.current.forEach` loop of `calculateActiveFromScroll`
(lines 540-550) with its two mutable accumulators `closestIndex` and
`closestDistance` made explicit (`none` is the initial `Infinity`, which
every finite distance beats); null item refs are skipped. -/
def calcLoop (wheelCenter : ℚ) :
    List (Option ItemRect) → Nat → Nat → Option ℚ → Nat × Option ℚ
  | [], _, closestIndex, closestDistance => (closestIndex, closestDistance)
  | none :: rest, index, closestIndex, closestDistance =>
      calcLoop wheelCenter rest (index + 1) closestIndex closestDistance
  | some r :: rest, index, closestIndex, closestDistance =>
      let distance := itemCenterDist wheelCenter r
      match closestDistance with
      | none => calcLoop wheelCenter rest (index + 1) index (some distance)
      | some b =>
          if distance < b then calcLoop wheelCenter rest (index + 1) index (some distance)
          else calcLoop wheelCenter rest (index + 1) closestIndex (some b)

/-- The index `calculateActiveFromScroll` settles on (initial accumulators
`closestIndex = 0`, `closestDistance = Infinity`). -/
def closestIndexCalc (wheelCenter : ℚ) (items : List (Option ItemRect)) : Nat :=
  (calcLoop wheelCenter items 0 0 none).1

/-- `calculateActiveFromScroll` (lines 530-557) as a state transition: set
the active index to the nearest-to-center item and fire `onActiveChange`
when `options[closestIndex]` exists.  `wheelTop`/`wheelHeight` are the
wheel viewport's measured rectangle (the wheel ref is non-null here; a
null ref short-circuits the whole function with no effect). -/
def calculateActiveFromScroll (options : List WheelOption)
    (wheelTop wheelHeight : ℚ) (items : List (Option ItemRect))
    (st : WSState) : WSState × List WSEvent :=
  let wheelCenter := wheelTop + wheelHeight / 2
  let closestIndex := closestIndexCalc wheelCenter items
  let st1 := { st with activeIndex := closestIndex }
  match options[closestIndex]? with
  | some o => (st1, [WSEvent.activeChange closestIndex o])
  | none => (st1, [])

/-- Distance of item `j` of a rect list from the wheel center (out-of-range
indices get a zero rect; only used under an in-range hypothesis). -/
def distAt (wheelCenter : ℚ) (l : List ItemRect) (j : Nat) : ℚ :=
  itemCenterDist wheelCenter (l.getD j ⟨0, 0⟩)

/-- Content-coordinate `offsetTop` of item `i` in the layout model: the
leading spacer followed by the items stacked without overlap. -/
def offsetTop (spacer : ℚ) (heights : List ℚ) (i : Nat) : ℚ :=
  spacer + (heights.take i).sum

/-- Viewport rectangles of all items at scroll position `scrollTop`:
`rect.top = wheelTop + offsetTop - scrollTop`. -/
def layoutRects (wheelTop scrollTop spacer : ℚ) (heights : List ℚ) :
    List ItemRect :=
  (List.range heights.length).map
    (fun i => { top := wheelTop + offsetTop spacer heights i - scrollTop,
                height := heights.getD i 0 })

/-- The open-time scroll target of the initial-scroll effect (lines
503-520): `scrollTarget = itemTop - wheelHeight / 2 + itemHeight / 2`. -/
def centerScrollTop (wheelHeight spacer : ℚ) (heights : List ℚ) (i : Nat) : ℚ :=
  offsetTop spacer heights i - wheelHeight / 2 + heights.getD i 0 / 2

/-- Timer semantics of `handleScroll` (lines 560-571) over a finite trace
of scroll events `(time, scrollTop)`, times nondecreasing: a pending timer
with fire time `ft ≤ t` fires before the event at `t` (recording the
scroll position current at its fire time); the event then clears any
pending timer (`clearTimeout`) and schedules a fresh one `d` ms out. -/
def scrollSim (d : Nat) :
    List (Nat × ℚ) → Option Nat → ℚ → List (Nat × ℚ) →
    Option Nat × ℚ × List (Nat × ℚ)
  | [], pending, pos, fired => (pending, pos, fired)
  | (t, p) :: rest, pending, pos, fired =>
      let fired1 := match pending with
        | some ft => if ft ≤ t then fired ++ [(ft, pos)] else fired
        | none => fired
      scrollSim d rest (some (t + d)) p fired1

/-- Complete run of a scroll trace starting with no pending timer,
followed by quiescence: a still-pending timer fires at its fire time with
the final scroll position.  Returns the list of debounced
recomputations `(fireTime, scrollTopAtFire)`. -/
def runScrolls (d : Nat) (pos0 : ℚ) (evs : List (Nat × ℚ)) :
    List (Nat × ℚ) :=
  match scrollSim d evs none pos0 [] with
  | (some ft, pos, fired) => fired ++ [(ft, pos)]
  | (none, _, fired) => fired

/-- A JavaScript value as `mergeDeep`/`toCssValue` can observe it:
`undefined`, `null`, booleans, numbers, strings, arrays and plain objects
(fields kept in insertion order; JavaScript object keys are unique). -/
inductive JVal where
  | undef : JVal
  | jnull : JVal
  | jbool (b : Bool) : JVal
  | jnum (q : ℚ) : JVal
  | jstr (s : String) : JVal
  | jarr (elems : List JVal) : JVal
  | jobj (fields : List (String × JVal)) : JVal

/-- Property read `fields[key]`: first binding wins, absent keys read as
`undefined`. -/
def lookupF : List (String × JVal) → String → JVal
  | [], _ => .undef
  | (k, v) :: rest, key => if k = key then v else lookupF rest key

/-- Property write `fields[key] = v`: overwrite in place, append when
new. -/
def setField : List (String × JVal) → String → JVal → List (String × JVal)
  | [], key, v => [(key, v)]
  | (k, w) :: rest, key, v =>
      if k = key then (k, v) :: rest else (k, w) :: setField rest key v

/-- Fields of a value: the fields of an object, empty otherwise (primitive
values expose no own enumerable properties to `for...in`; string index
enumeration is unreachable in the component, which only ever merges the
configuration records). -/
def fieldsOfV : JVal → List (String × JVal)
  | .jobj f => f
  | _ => []

/-- The `for (const key in source)` loop of `mergeDeep` (lines 346-365)
over the source fields, mutating `res` (initially a copy of the target):
skip `undefined` source fields; recursively merge source fields that are
non-null non-array objects (`typeof === 'object'`), which of the value
forms here is exactly `jobj`; assign every other defined value. -/
def mergeFields (tfields res : List (String × JVal)) :
    List (String × JVal) → List (String × JVal)
  | [] => res
  | (k, v) :: rest =>
      match v with
      | .undef => mergeFields tfields res rest
      | .jobj o =>
          mergeFields tfields
            (setField res k (.jobj (mergeFields (fieldsOfV (lookupF tfields k))
              (fieldsOfV (lookupF tfields k)) o))) rest
      | .jnull => mergeFields tfields (setField res k .jnull) rest
      | .jbool b => mergeFields tfields (setField res k (.jbool b)) rest
      | .jnum q => mergeFields tfields (setField res k (.jnum q)) rest
      | .jstr s => mergeFields tfields (setField res k (.jstr s)) rest
      | .jarr a => mergeFields tfields (setField res k (.jarr a)) rest

/-- `mergeDeep(target, source)` (lines 346-365): start from a copy of the
target's fields and fold the defined source fields over it. -/
def mergeDeep (target source : JVal) : JVal :=
  .jobj (mergeFields (fieldsOfV target) (fieldsOfV target) (fieldsOfV source))

/-- `toCssValue` (lines 341-344) on its TypeScript input type
`number | string | undefined`: numbers become `"<n>px"`, strings pass
through, `undefined` yields the default. -/
def toCssValue (value : Option (ℚ ⊕ String)) (defaultValue : String) : String :=
  match value with
  | none => defaultValue
  | some (Sum.inl q) => toString q ++ "px"
  | some (Sum.inr s) => s

/-- Concrete default-shaped config object used as witness input. -/
def exampleTargetF : List (String × JVal) :=
  [("a", .jnum 1), ("b", .jbool true),
   ("c", .jobj [("x", .jnum 2), ("y", .jstr "s")])]

/-- Concrete partial-override config object used as witness input:
overrides `"b"` with a falsy value, deep-merges `"c"`, and leaves `"d"`
explicitly `undefined`. -/
def exampleSourceF : List (String × JVal) :=
  [("b", .jbool false), ("c", .jobj [("x", .jnum 5)]), ("d", .undef)]

theorem findIdx?_eq_none_of (p : WheelOption → Bool) :
    ∀ (l : List WheelOption) (s : Nat), (∀ a ∈ l, p a = false) →
      List.findIdx? p l s = none := by
  intro l
  induction l with
  | nil => intro s _; rfl
  | cons x xs ih =>
    intro s h
    rw [List.findIdx?_cons]
    rw [h x (List.mem_cons_self x xs)]
    simp only [Bool.false_eq_true, if_false]
    exact ih (s + 1) (fun a ha => h a (List.mem_cons_of_mem x ha))

theorem findIdx?_eq_some_of (p : WheelOption → Bool) :
    ∀ (l : List WheelOption) (s i : Nat) (a : WheelOption),
      l[i]? = some a → p a = true →
      (∀ j b, j < i → l[j]? = some b → p b = false) →
      List.findIdx? p l s = some (s + i) := by
  intro l
  induction l with
  | nil => intro s i a hget; simp at hget
  | cons x xs ih =>
    intro s i a hget hpa hprev
    rw [List.findIdx?_cons]
    cases i with
    | zero =>
      simp at hget
      subst hget
      rw [hpa]
      simp
    | succ i =>
      have hx : p x = false := hprev 0 x (Nat.succ_pos i) (by simp)
      rw [hx]
      simp only [Bool.false_eq_true, if_false]
      have := ih (s + 1) i a (by simpa using hget) hpa
        (fun j b hj hb => hprev (j + 1) b (by omega) (by simpa using hb))
      rw [this]
      congr 1
      omega

/-- C1: committing a value whose every matching option is disabled (in
particular a value that matches no option at all) is a complete no-op:
the state — including the open flag, the hidden native select's mirrored
value — is unchanged, and no callback (external `onChange`, change
notification, `onClose`) fires. -/
theorem commit_invalid_is_noop (options : List WheelOption)
    (behavior : WSBehavior) (st : WSState) (v : String)
    (h : ∀ o ∈ options, o.value = v → o.disabled = true) :
    commitSelection options behavior st v = (st, []) := by
  unfold commitSelection
  cases hf : options.find? (fun o => o.value == v) with
  | none => rfl
  | some o =>
    have hmem := List.mem_of_find?_eq_some hf
    have hp := List.find?_some hf
    simp only [beq_iff_eq] at hp
    have hd := h o hmem hp
    simp [hd]

/-- Witness for C1: committing the disabled option `B` of
`[A, B (disabled), C]` changes nothing and fires nothing. -/
theorem commit_invalid_is_noop_w :
    commitSelection exampleOptions defaultBehaviorM exampleState "b"
      = (exampleState, []) :=
  commit_invalid_is_noop exampleOptions defaultBehaviorM exampleState "b"
    (by decide)

/-- C9: the imperative `scrollToIndex` leaves the whole component state
(active index, open flag, mirrored native value — the externally visible
selected value is host-owned and receives no `onChange`) untouched, and
its only effect, if any, is the smooth scroll of the indexed item. -/
theorem scroll_to_index_frame (itemCount : Nat) (st : WSState) (index : Nat) :
    (scrollToIndexOp itemCount st index).1 = st ∧
    ∀ e ∈ (scrollToIndexOp itemCount st index).2,
      ∃ j, e = WSEvent.scrollIntoView j := by
  unfold scrollToIndexOp
  split
  · exact ⟨rfl, by intro e he; simp at he; exact ⟨index, he⟩⟩
  · exact ⟨rfl, by intro e he; simp at he⟩

/-- Witness for C9 at a concrete rendered index. -/
theorem scroll_to_index_frame_w :
    (scrollToIndexOp 3 exampleState 1).1 = exampleState ∧
    (∃ j, WSEvent.scrollIntoView 1 = WSEvent.scrollIntoView j) :=
  ⟨(scroll_to_index_frame 3 exampleState 1).1,
   (scroll_to_index_frame 3 exampleState 1).2 (WSEvent.scrollIntoView 1)
     (by simp [scrollToIndexOp])⟩

/-- Counterexample for C7: `closePicker` does not clear a pending
scroll-debounce timer — closing a state whose timer is pending leaves the
timer pending, contradicting the claim that closing clears it. -/
theorem close_picker_keeps_timer_cex :
    pendingState.pendingTimer = some 7 ∧
    (closePicker defaultBehaviorM pendingState).1.pendingTimer = some 7 :=
  ⟨rfl, rfl⟩

/-- C7 (amended): the unmount cleanup clears any pending scroll-debounce
timer, so the deferred recomputation never fires after unmount;
`closePicker`, by contrast, leaves the pending timer exactly as it was
(only item clicks and unmount clear it). -/
theorem timer_cleanup_spec (behavior : WSBehavior) (st : WSState) :
    (unmountCleanup st).pendingTimer = none ∧
    (closePicker behavior st).1.pendingTimer = st.pendingTimer :=
  ⟨rfl, rfl⟩

/-- C10: with the `disabled` prop set, opening is a complete no-op however
it is invoked — `openPicker` directly (trigger click or imperative
`open`), or the imperative `toggle` on a closed state: the state (open
flag, active index, measured trigger rectangle) is unchanged and no
`onOpen` fires. -/
theorem disabled_open_is_noop (options : List WheelOption) (value : String)
    (measuredRect : Option TriggerRect) (behavior : WSBehavior) (st : WSState) :
    openPicker true options value measuredRect st = (st, []) ∧
    (st.isOpen = false →
      togglePicker true options value measuredRect behavior st = (st, [])) := by
  constructor
  · simp [openPicker]
  · intro h
    unfold togglePicker
    rw [h]
    simp [openPicker]

/-- Witness for C10: toggling a closed, disabled widget does nothing. -/
theorem disabled_open_is_noop_w :
    togglePicker true exampleOptions "a" none defaultBehaviorM
      exampleClosedState = (exampleClosedState, []) :=
  (disabled_open_is_noop exampleOptions "a" none defaultBehaviorM
    exampleClosedState).2 rfl

/-- C4: `openPicker` on an enabled widget (from the trigger or the
imperative handle) opens the overlay, fires exactly the `onOpen`
notification, snapshots the measured trigger rectangle, and seeds both
the active index and the initial scroll-target index with the index of
the (first) option matching the external value — index `0` when no
option matches. -/
theorem open_picker_seeds_index (options : List WheelOption) (value : String)
    (rect : TriggerRect) (st : WSState) :
    ∃ st2 evs, openPicker false options value (some rect) st = (st2, evs) ∧
      st2.isOpen = true ∧
      evs = [WSEvent.onOpen] ∧
      st2.initialScrollIndex = some st2.activeIndex ∧
      st2.triggerRect = some rect ∧
      ((∀ o ∈ options, o.value ≠ value) → st2.activeIndex = 0) ∧
      (∀ i o, options[i]? = some o → o.value = value →
        (∀ j o2, j < i → options[j]? = some o2 → o2.value ≠ value) →
        st2.activeIndex = i) := by
  refine ⟨_, _, rfl, ?_⟩
  simp only [openPicker, if_false, Bool.false_eq_true]
  refine ⟨trivial, trivial, trivial, trivial, ?_, ?_⟩
  · intro h
    have hnone : List.findIdx? (fun o => o.value == value) options 0 = none :=
      findIdx?_eq_none_of _ options 0
        (fun a ha => by simp only [beq_eq_false_iff_ne, ne_eq]; exact h a ha)
    simp [findIndexJS, hnone]
  · intro i o hget hval hprev
    have hsome : List.findIdx? (fun o => o.value == value) options 0 = some i := by
      have := findIdx?_eq_some_of (fun o => o.value == value) options 0 i o hget
        (by simp [hval])
        (fun j b hj hb => by
          simp only [beq_eq_false_iff_ne, ne_eq]
          exact hprev j b hj hb)
      simpa using this
    simp only [findIndexJS, hsome]
    have h1 : (((i : Int)) != -1) = true := by simp [bne]
    rw [h1]
    simp

/-- Witness for C4: opening with external value `"b"` (present at index 1
of `[A, B (disabled), C]`) seeds the active index with 1. -/
theorem open_picker_seeds_index_w :
    ∃ st2 evs,
      openPicker false exampleOptions "b" (some exampleRect)
        exampleClosedState = (st2, evs) ∧ st2.activeIndex = 1 := by
  obtain ⟨st2, evs, heq, _, _, _, _, _, hidx⟩ :=
    open_picker_seeds_index exampleOptions "b" exampleRect exampleClosedState
  refine ⟨st2, evs, heq, ?_⟩
  exact hidx 1 ⟨"b", "B", true⟩ rfl rfl
    (by
      intro j o2 hj h
      interval_cases j
      simp [exampleOptions] at h
      subst h
      decide)

theorem skipDown_eq (options : List WheelOption) (n : Nat) :
    skipDisabledDown options n =
      if n < options.length ∧ disabledAt options n = true then
        skipDisabledDown options (n + 1)
      else n := by
  conv_lhs => rw [skipDisabledDown]
  rw [dite_eq_ite]

theorem skipUp_eq (options : List WheelOption) (n : Int) :
    skipDisabledUp options n =
      if 0 ≤ n ∧ disabledAt options n.toNat = true then
        skipDisabledUp options (n - 1)
      else n := by
  conv_lhs => rw [skipDisabledUp]
  rw [dite_eq_ite]

theorem skipDown_spec (options : List WheelOption) (n : Nat) :
    n ≤ skipDisabledDown options n ∧
    (n ≤ options.length → skipDisabledDown options n ≤ options.length) ∧
    (skipDisabledDown options n < options.length →
      disabledAt options (skipDisabledDown options n) = false) ∧
    (∀ j, n ≤ j → disabledAt options j = false → skipDisabledDown options n ≤ j) := by
  suffices H : ∀ fuel m, options.length - m ≤ fuel →
      (m ≤ skipDisabledDown options m ∧
       (m ≤ options.length → skipDisabledDown options m ≤ options.length) ∧
       (skipDisabledDown options m < options.length →
         disabledAt options (skipDisabledDown options m) = false) ∧
       (∀ j, m ≤ j → disabledAt options j = false → skipDisabledDown options m ≤ j)) by
    exact H (options.length - n) n le_rfl
  intro fuel
  induction fuel with
  | zero =>
    intro m hm
    have hlen : options.length ≤ m := by omega
    rw [skipDown_eq]
    rw [if_neg (by omega)]
    refine ⟨le_rfl, fun h => h, fun h => absurd h (by omega), fun j hj _ => hj⟩
  | succ fuel ih =>
    intro m hm
    rw [skipDown_eq]
    by_cases hc : m < options.length ∧ disabledAt options m = true
    · rw [if_pos hc]
      obtain ⟨r1, r2, r3, r4⟩ := ih (m + 1) (by omega)
      refine ⟨by omega, fun _ => r2 (by omega), r3, ?_⟩
      intro j hj hdis
      have hne : m ≠ j := by
        intro h
        rw [h] at hc
        rw [hdis] at hc
        exact absurd hc.2 (by simp)
      exact r4 j (by omega) hdis
    · rw [if_neg hc]
      refine ⟨le_rfl, fun h => h, ?_, fun j hj _ => hj⟩
      intro hlt
      cases hdis : disabledAt options m with
      | false => rfl
      | true => exact absurd ⟨hlt, hdis⟩ hc

theorem skipUp_spec (options : List WheelOption) (n : Int) :
    skipDisabledUp options n ≤ n ∧
    (-1 ≤ n → -1 ≤ skipDisabledUp options n) ∧
    (0 ≤ skipDisabledUp options n →
      disabledAt options (skipDisabledUp options n).toNat = false) ∧
    (∀ j : Int, j ≤ n → 0 ≤ j → disabledAt options j.toNat = false →
      j ≤ skipDisabledUp options n) := by
  suffices H : ∀ fuel (m : Int), (m + 1).toNat ≤ fuel →
      (skipDisabledUp options m ≤ m ∧
       (-1 ≤ m → -1 ≤ skipDisabledUp options m) ∧
       (0 ≤ skipDisabledUp options m →
         disabledAt options (skipDisabledUp options m).toNat = false) ∧
       (∀ j : Int, j ≤ m → 0 ≤ j → disabledAt options j.toNat = false →
         j ≤ skipDisabledUp options m)) by
    exact H (n + 1).toNat n le_rfl
  intro fuel
  induction fuel with
  | zero =>
    intro m hm
    have hneg : m < 0 := by omega
    rw [skipUp_eq]
    rw [if_neg (by omega)]
    refine ⟨le_rfl, fun h => h, fun h => absurd h (by omega), fun j hj hj0 _ => hj⟩
  | succ fuel ih =>
    intro m hm
    rw [skipUp_eq]
    by_cases hc : 0 ≤ m ∧ disabledAt options m.toNat = true
    · rw [if_pos hc]
      obtain ⟨r1, r2, r3, r4⟩ := ih (m - 1) (by omega)
      refine ⟨by omega, fun _ => by omega, r3, ?_⟩
      intro j hj hj0 hdis
      have hne : j ≠ m := by
        intro h
        rw [h] at hdis
        rw [hdis] at hc
        exact absurd hc.2 (by simp)
      exact r4 j (by omega) hj0 hdis
    · rw [if_neg hc]
      refine ⟨le_rfl, fun h => h, ?_, fun j hj _ _ => hj⟩
      intro hge
      cases hdis : disabledAt options m.toNat with
      | false => rfl
      | true => exact absurd ⟨hge, hdis⟩ hc

/-- C2: with the active index in bounds, the ArrowDown updater moves to
the nearest following non-disabled option (skipping disabled ones) and is
a no-op when every following option is disabled; mirrored for ArrowUp.
The result always stays within `[0, length-1]` and, whenever it moved,
never lands on a disabled option.  In particular, on
`[A, B (disabled), C]` from index 0, ArrowDown yields 2, and from 2 it
stays at 2. -/
theorem arrow_nav_spec (options : List WheelOption) (prev : Nat)
    (h : prev < options.length) :
    (arrowDownNext options prev < options.length ∧
     prev ≤ arrowDownNext options prev ∧
     (arrowDownNext options prev ≠ prev →
       disabledAt options (arrowDownNext options prev) = false) ∧
     (∀ j, prev < j → j < options.length → disabledAt options j = false →
       prev < arrowDownNext options prev ∧ arrowDownNext options prev ≤ j) ∧
     ((∀ j, prev < j → j < options.length → disabledAt options j = true) →
       arrowDownNext options prev = prev)) ∧
    (arrowUpNext options prev < options.length ∧
     arrowUpNext options prev ≤ prev ∧
     (arrowUpNext options prev ≠ prev →
       disabledAt options (arrowUpNext options prev) = false) ∧
     (∀ j, j < prev → disabledAt options j = false →
       arrowUpNext options prev < prev ∧ j ≤ arrowUpNext options prev) ∧
     ((∀ j, j < prev → disabledAt options j = true) →
       arrowUpNext options prev = prev)) ∧
    arrowDownNext exampleOptions 0 = 2 ∧
    arrowDownNext exampleOptions 2 = 2 := by
  have hdown : ∀ (opts : List WheelOption) (p : Nat), p < opts.length →
      (arrowDownNext opts p < opts.length ∧
       p ≤ arrowDownNext opts p ∧
       (arrowDownNext opts p ≠ p → disabledAt opts (arrowDownNext opts p) = false) ∧
       (∀ j, p < j → j < opts.length → disabledAt opts j = false →
         p < arrowDownNext opts p ∧ arrowDownNext opts p ≤ j) ∧
       ((∀ j, p < j → j < opts.length → disabledAt opts j = true) →
         arrowDownNext opts p = p)) := by
    intro opts p hp
    obtain ⟨s1, s2, s3, s4⟩ := skipDown_spec opts (p + 1)
    unfold arrowDownNext
    by_cases hend : skipDisabledDown opts (p + 1) ≥ opts.length
    · rw [if_pos hend]
      refine ⟨hp, le_rfl, fun hne => absurd rfl hne, ?_, fun _ => rfl⟩
      intro j hj hjlen hdis
      have h4 := s4 j (by omega) hdis
      omega
    · rw [if_neg hend]
      push_neg at hend
      refine ⟨hend, by omega, fun _ => s3 hend, ?_, ?_⟩
      · intro j hj hjlen hdis
        exact ⟨by omega, s4 j (by omega) hdis⟩
      · intro hall
        have h3 := s3 hend
        have h2 := hall (skipDisabledDown opts (p + 1)) (by omega) hend
        rw [h3] at h2
        exact absurd h2 (by decide)
  have hup : ∀ (opts : List WheelOption) (p : Nat), p < opts.length →
      (arrowUpNext opts p < opts.length ∧
       arrowUpNext opts p ≤ p ∧
       (arrowUpNext opts p ≠ p → disabledAt opts (arrowUpNext opts p) = false) ∧
       (∀ j, j < p → disabledAt opts j = false →
         arrowUpNext opts p < p ∧ j ≤ arrowUpNext opts p) ∧
       ((∀ j, j < p → disabledAt opts j = true) → arrowUpNext opts p = p)) := by
    intro opts p hp
    obtain ⟨s1, s2, s3, s4⟩ := skipUp_spec opts ((p : Int) - 1)
    unfold arrowUpNext
    by_cases hneg : skipDisabledUp opts ((p : Int) - 1) < 0
    · rw [if_pos hneg]
      refine ⟨hp, le_rfl, fun hne => absurd rfl hne, ?_, fun _ => rfl⟩
      intro j hj hdis
      have h4 := s4 (j : Int) (by omega) (by omega) (by simpa using hdis)
      omega
    · rw [if_neg hneg]
      push_neg at hneg
      refine ⟨by omega, by omega, fun _ => s3 hneg, ?_, ?_⟩
      · intro j hj hdis
        have h4 := s4 (j : Int) (by omega) (by omega) (by simpa using hdis)
        exact ⟨by omega, by omega⟩
      · intro hall
        have h3 := s3 hneg
        have h2 := hall (skipDisabledUp opts ((p : Int) - 1)).toNat (by omega)
        rw [h3] at h2
        exact absurd h2 (by decide)
  have hex1 : arrowDownNext exampleOptions 0 = 2 := by
    obtain ⟨d1, d2, d3, d4, d5⟩ := hdown exampleOptions 0 (by decide)
    obtain ⟨e1, e2⟩ := d4 2 (by decide) (by decide) (by decide)
    have hne1 : arrowDownNext exampleOptions 0 ≠ 1 := by
      intro heq
      have hdis := d3 (by omega)
      rw [heq] at hdis
      exact absurd hdis (by decide)
    omega
  have hex2 : arrowDownNext exampleOptions 2 = 2 := by
    obtain ⟨_, _, _, _, d5⟩ := hdown exampleOptions 2 (by decide)
    refine d5 (fun j hj hjlen => ?_)
    have hlen3 : exampleOptions.length = 3 := rfl
    omega
  exact ⟨hdown options prev h, hup options prev h, hex1, hex2⟩

/-- Witness for C2 at the spec example: `[A, B (disabled), C]`, active
index 0, ArrowDown lands on index 2. -/
theorem arrow_nav_spec_w : arrowDownNext exampleOptions 0 = 2 :=
  (arrow_nav_spec exampleOptions 0 (by decide)).2.2.1

theorem calcLoop_spec (wc : ℚ) (l : List ItemRect) :
    ∀ (idx bi : Nat) (b : ℚ),
      ∃ rd, (calcLoop wc (l.map some) idx bi (some b)).2 = some rd ∧
        rd ≤ b ∧
        (∀ j, j < l.length → rd ≤ distAt wc l j) ∧
        (((calcLoop wc (l.map some) idx bi (some b)).1 = bi ∧ rd = b) ∨
         (∃ k, k < l.length ∧
           (calcLoop wc (l.map some) idx bi (some b)).1 = idx + k ∧
           rd = distAt wc l k ∧ rd < b ∧
           (∀ j, j < k → rd < distAt wc l j))) := by
  induction l with
  | nil =>
    intro idx bi b
    exact ⟨b, rfl, le_rfl, fun j hj => absurd hj (by simp), Or.inl ⟨rfl, rfl⟩⟩
  | cons r rest ih =>
    intro idx bi b
    by_cases hlt : itemCenterDist wc r < b
    · have hstep : calcLoop wc ((r :: rest).map some) idx bi (some b)
          = calcLoop wc (rest.map some) (idx + 1) idx (some (itemCenterDist wc r)) := by
        simp only [List.map_cons, calcLoop]
        rw [if_pos hlt]
      rw [hstep]
      obtain ⟨rd, h2, hle, hmin, hcase⟩ := ih (idx + 1) idx (itemCenterDist wc r)
      refine ⟨rd, h2, le_trans hle (le_of_lt hlt), ?_, ?_⟩
      · intro j hj
        cases j with
        | zero => simpa [distAt] using hle
        | succ j => simpa [distAt] using hmin j (by simpa using hj)
      · rcases hcase with ⟨hfst, hrd⟩ | ⟨k, hk, hfst, hrd, hltd, hprev⟩
        · refine Or.inr ⟨0, by simp, by simpa using hfst, by simpa [distAt] using hrd, ?_, ?_⟩
          · rw [hrd]; exact hlt
          · intro j hj; omega
        · refine Or.inr ⟨k + 1, by simpa using hk, by rw [hfst]; omega, by simpa [distAt] using hrd, lt_trans hltd hlt, ?_⟩
          intro j hj
          cases j with
          | zero => simpa [distAt] using hltd
          | succ j => simpa [distAt] using hprev j (by omega)
    · have hstep : calcLoop wc ((r :: rest).map some) idx bi (some b)
          = calcLoop wc (rest.map some) (idx + 1) bi (some b) := by
        simp only [List.map_cons, calcLoop]
        rw [if_neg hlt]
      rw [hstep]
      have hble : b ≤ itemCenterDist wc r := le_of_not_lt hlt
      obtain ⟨rd, h2, hle, hmin, hcase⟩ := ih (idx + 1) bi b
      refine ⟨rd, h2, hle, ?_, ?_⟩
      · intro j hj
        cases j with
        | zero => simpa [distAt] using le_trans hle hble
        | succ j => simpa [distAt] using hmin j (by simpa using hj)
      · rcases hcase with ⟨hfst, hrd⟩ | ⟨k, hk, hfst, hrd, hltd, hprev⟩
        · exact Or.inl ⟨hfst, hrd⟩
        · refine Or.inr ⟨k + 1, by simpa using hk, by rw [hfst]; omega, by simpa [distAt] using hrd, hltd, ?_⟩
          intro j hj
          cases j with
          | zero => simpa [distAt] using lt_of_lt_of_le hltd hble
          | succ j => simpa [distAt] using hprev j (by omega)

theorem closest_spec_aux (wc : ℚ) (l : List ItemRect) (hne : l ≠ []) :
    closestIndexCalc wc (l.map some) < l.length ∧
    (∀ j, j < l.length →
      distAt wc l (closestIndexCalc wc (l.map some)) ≤ distAt wc l j) ∧
    (∀ j, j < closestIndexCalc wc (l.map some) →
      distAt wc l (closestIndexCalc wc (l.map some)) < distAt wc l j) := by
  cases l with
  | nil => exact absurd rfl hne
  | cons r rest =>
    have hstep : closestIndexCalc wc ((r :: rest).map some)
        = (calcLoop wc (rest.map some) 1 0 (some (itemCenterDist wc r))).1 := by
      simp only [closestIndexCalc, List.map_cons, calcLoop]
    obtain ⟨rd, h2, hle, hmin, hcase⟩ := calcLoop_spec wc rest 1 0 (itemCenterDist wc r)
    rcases hcase with ⟨hfst, hrd⟩ | ⟨k, hk, hfst, hrd, hltd, hprev⟩
    · rw [hstep, hfst]
      refine ⟨by simp, ?_, ?_⟩
      · intro j hj
        cases j with
        | zero => exact le_rfl
        | succ j =>
          have h0 : distAt wc (r :: rest) 0 = itemCenterDist wc r := by simp [distAt]
          have hs : distAt wc (r :: rest) (j + 1) = distAt wc rest j := by simp [distAt]
          rw [h0, hs, ← hrd]
          exact hmin j (by simpa using hj)
      · intro j hj; omega
    · rw [hstep, hfst]
      have hself : distAt wc (r :: rest) (1 + k) = rd := by
        have h1k : 1 + k = k + 1 := by omega
        rw [h1k]
        have hs : distAt wc (r :: rest) (k + 1) = distAt wc rest k := by simp [distAt]
        rw [hs]
        exact hrd.symm
      refine ⟨by simp only [List.length_cons]; omega, ?_, ?_⟩
      · intro j hj
        rw [hself]
        cases j with
        | zero =>
          have h0 : distAt wc (r :: rest) 0 = itemCenterDist wc r := by simp [distAt]
          rw [h0]; exact le_of_lt hltd
        | succ j =>
          have hs : distAt wc (r :: rest) (j + 1) = distAt wc rest j := by simp [distAt]
          rw [hs]; exact hmin j (by simpa using hj)
      · intro j hj
        rw [hself]
        cases j with
        | zero =>
          have h0 : distAt wc (r :: rest) 0 = itemCenterDist wc r := by simp [distAt]
          rw [h0]; exact hltd
        | succ j =>
          have hs : distAt wc (r :: rest) (j + 1) = distAt wc rest j := by simp [distAt]
          rw [hs]; exact hprev j (by omega)

/-- C5: on a non-empty list of rendered item rectangles, the scroll-settle
recomputation sets the active index to the item whose vertical center is
nearest the wheel viewport's vertical center — with ties going to the
lowest index, i.e. every earlier item is strictly farther — and fires
`onActiveChange` with that index and its option exactly when the option
exists. -/
theorem closest_center_spec (options : List WheelOption)
    (wheelTop wheelHeight : ℚ) (l : List ItemRect) (st : WSState)
    (hne : l ≠ []) :
    ∃ k, k = closestIndexCalc (wheelTop + wheelHeight / 2) (l.map some) ∧
      (calculateActiveFromScroll options wheelTop wheelHeight (l.map some)
        st).1.activeIndex = k ∧
      k < l.length ∧
      (∀ j, j < l.length → distAt (wheelTop + wheelHeight / 2) l k
        ≤ distAt (wheelTop + wheelHeight / 2) l j) ∧
      (∀ j, j < k → distAt (wheelTop + wheelHeight / 2) l k
        < distAt (wheelTop + wheelHeight / 2) l j) ∧
      (∀ o, options[k]? = some o →
        (calculateActiveFromScroll options wheelTop wheelHeight (l.map some)
          st).2 = [WSEvent.activeChange k o]) ∧
      (options[k]? = none →
        (calculateActiveFromScroll options wheelTop wheelHeight (l.map some)
          st).2 = []) := by
  obtain ⟨h1, h2, h3⟩ := closest_spec_aux (wheelTop + wheelHeight / 2) l hne
  refine ⟨_, rfl, ?_, h1, h2, h3, ?_, ?_⟩
  · simp only [calculateActiveFromScroll]
    split <;> rfl
  · intro o ho
    simp only [calculateActiveFromScroll]
    rw [ho]
  · intro ho
    simp only [calculateActiveFromScroll]
    rw [ho]

/-- Witness for C5: two stacked items, both centers 5 away from the wheel
center (an exact tie), settle on the lower index 0. -/
theorem closest_center_spec_w :
    ∃ k, k = closestIndexCalc ((0 : ℚ) + 20 / 2)
        (([⟨0, 10⟩, ⟨10, 10⟩] : List ItemRect).map some) ∧
      (calculateActiveFromScroll exampleOptions 0 20
        (([⟨0, 10⟩, ⟨10, 10⟩] : List ItemRect).map some)
        exampleState).1.activeIndex = k ∧
      k < ([⟨0, 10⟩, ⟨10, 10⟩] : List ItemRect).length ∧
      (∀ j, j < ([⟨0, 10⟩, ⟨10, 10⟩] : List ItemRect).length →
        distAt ((0 : ℚ) + 20 / 2) [⟨0, 10⟩, ⟨10, 10⟩] k
          ≤ distAt ((0 : ℚ) + 20 / 2) [⟨0, 10⟩, ⟨10, 10⟩] j) ∧
      (∀ j, j < k → distAt ((0 : ℚ) + 20 / 2) [⟨0, 10⟩, ⟨10, 10⟩] k
          < distAt ((0 : ℚ) + 20 / 2) [⟨0, 10⟩, ⟨10, 10⟩] j) ∧
      (∀ o, exampleOptions[k]? = some o →
        (calculateActiveFromScroll exampleOptions 0 20
          (([⟨0, 10⟩, ⟨10, 10⟩] : List ItemRect).map some)
          exampleState).2 = [WSEvent.activeChange k o]) ∧
      (exampleOptions[k]? = none →
        (calculateActiveFromScroll exampleOptions 0 20
          (([⟨0, 10⟩, ⟨10, 10⟩] : List ItemRect).map some)
          exampleState).2 = []) :=
  closest_center_spec exampleOptions 0 20 [⟨0, 10⟩, ⟨10, 10⟩] exampleState
    (by simp)

theorem getD_eq_get_q (l : List ℚ) (n : Nat) (h : n < l.length) :
    l.getD n 0 = l[n] := by
  rw [List.getD_eq_getElem?_getD, List.getElem?_eq_getElem h]
  rfl

theorem sum_take_mono_nonneg (heights : List ℚ)
    (hpos : ∀ x ∈ heights, 0 ≤ x) (a b : Nat) (hab : a ≤ b) :
    (heights.take a).sum ≤ (heights.take b).sum := by
  have h1 : heights.take a = (heights.take b).take a := by
    rw [List.take_take, inf_eq_left.mpr hab]
  rw [h1]
  conv_rhs => rw [← List.take_append_drop a (heights.take b)]
  rw [List.sum_append]
  have hnn : 0 ≤ ((heights.take b).drop a).sum := by
    apply List.sum_nonneg
    intro x hx
    exact hpos x (List.mem_of_mem_take (List.mem_of_mem_drop hx))
  linarith

theorem center_strict_mono (spacer : ℚ) (heights : List ℚ)
    (hpos : ∀ x ∈ heights, 0 < x) (a b : Nat) (hab : a < b)
    (hb : b < heights.length) :
    offsetTop spacer heights a + heights.getD a 0 / 2
      < offsetTop spacer heights b + heights.getD b 0 / 2 := by
  have ha : a < heights.length := by omega
  have hsucc := List.sum_take_succ heights a ha
  have hmono := sum_take_mono_nonneg heights
    (fun x hx => le_of_lt (hpos x hx)) (a + 1) b hab
  have hga : heights.getD a 0 = heights[a] := getD_eq_get_q heights a ha
  have hgb : heights.getD b 0 = heights[b] := getD_eq_get_q heights b hb
  have hpa : 0 < heights[a] := hpos _ (List.getElem_mem ha)
  have hpb : 0 < heights[b] := hpos _ (List.getElem_mem hb)
  unfold offsetTop
  rw [hga, hgb]
  linarith

/-- C3: centering round trip — for every in-bounds index `i`, positive
item heights stacked without overlap, setting the wheel scroll position
the way the open-time effect does
(`scrollTop = itemTop - wheelHeight/2 + itemHeight/2`) and re-running the
nearest-to-center recomputation yields exactly `i`. -/
theorem scroll_center_roundtrip (wheelTop wheelHeight spacer : ℚ)
    (heights : List ℚ) (hpos : ∀ x ∈ heights, 0 < x) (i : Nat)
    (hi : i < heights.length) :
    closestIndexCalc (wheelTop + wheelHeight / 2)
      ((layoutRects wheelTop (centerScrollTop wheelHeight spacer heights i)
        spacer heights).map some) = i := by
  set l := layoutRects wheelTop (centerScrollTop wheelHeight spacer heights i)
    spacer heights with hl
  have hlen : l.length = heights.length := by simp [layoutRects, hl]
  have hne : l ≠ [] := by
    intro h
    rw [h] at hlen
    simp at hlen
    omega
  obtain ⟨h1, h2, h3⟩ := closest_spec_aux (wheelTop + wheelHeight / 2) l hne
  set k := closestIndexCalc (wheelTop + wheelHeight / 2) (l.map some) with hk
  have hdist : ∀ j, j < heights.length →
      distAt (wheelTop + wheelHeight / 2) l j
        = |(offsetTop spacer heights j + heights.getD j 0 / 2)
            - (offsetTop spacer heights i + heights.getD i 0 / 2)| := by
    intro j hj
    have hjl : j < l.length := by omega
    have hget : l.getD j ⟨0, 0⟩ = l[j] := by
      rw [List.getD_eq_getElem?_getD, List.getElem?_eq_getElem hjl]
      rfl
    have hlj : l[j] = ⟨wheelTop + offsetTop spacer heights j
          - centerScrollTop wheelHeight spacer heights i,
          heights.getD j 0⟩ := by
      simp [hl, layoutRects]
    simp only [distAt, hget, hlj, itemCenterDist, centerScrollTop]
    congr 1
    ring
  have hdz : distAt (wheelTop + wheelHeight / 2) l i = 0 := by
    rw [hdist i hi]
    simp
  have hkh : k < heights.length := by omega
  have hdk : distAt (wheelTop + wheelHeight / 2) l k = 0 := by
    have hub := h2 i (by omega)
    rw [hdz] at hub
    have hlb : 0 ≤ distAt (wheelTop + wheelHeight / 2) l k := by
      rw [hdist k hkh]
      exact abs_nonneg _
    linarith
  rw [hdist k hkh] at hdk
  have hceq := abs_eq_zero.mp hdk
  by_contra hne2
  rcases Nat.lt_or_ge k i with hki | hik
  · have := center_strict_mono spacer heights hpos k i hki hi
    linarith
  · have hik2 : i < k := by omega
    have := center_strict_mono spacer heights hpos i k hik2 hkh
    linarith

/-- Witness for C3 at heights `[10, 10, 10]`, target index 1. -/
theorem scroll_center_roundtrip_w :
    closestIndexCalc ((0 : ℚ) + 30 / 2)
      ((layoutRects 0 (centerScrollTop 30 5 [10, 10, 10] 1) 5
        [10, 10, 10]).map some) = 1 :=
  scroll_center_roundtrip 0 30 5 [10, 10, 10] (by norm_num) 1 (by norm_num)

theorem scrollSim_quiet (d : Nat) :
    ∀ (evs : List (Nat × ℚ)) (prevT : Nat) (prevP : ℚ)
      (fired : List (Nat × ℚ)),
      List.Chain (fun a b => a.1 ≤ b.1 ∧ b.1 < a.1 + d) (prevT, prevP) evs →
      scrollSim d evs (some (prevT + d)) prevP fired
        = (some ((evs.getLastD (prevT, prevP)).1 + d),
           (evs.getLastD (prevT, prevP)).2, fired) := by
  intro evs
  induction evs with
  | nil =>
    intro prevT prevP fired _
    simp [scrollSim]
  | cons e rest ih =>
    intro prevT prevP fired hchain
    obtain ⟨t, p⟩ := e
    rw [List.chain_cons] at hchain
    obtain ⟨⟨hle, hlt⟩, hchain2⟩ := hchain
    have hstep : scrollSim d ((t, p) :: rest) (some (prevT + d)) prevP fired
        = scrollSim d rest (some (t + d)) p fired := by
      simp only [scrollSim]
      rw [if_neg (by omega)]
    rw [hstep, ih t p fired hchain2, List.getLastD_cons]

/-- C6: when every gap between consecutive scroll events is shorter than
the debounce delay (each event cancelling the previously scheduled timer
and scheduling a fresh one `scrollDebounceMs` out), a non-empty scroll
trace produces exactly one debounced recomputation: it fires strictly
after the last event, at the final scroll position — no superseded timer
ever fires. -/
theorem debounce_single_fire (d : Nat) (hd : 0 < d) (pos0 : ℚ)
    (evs : List (Nat × ℚ)) (hne : evs ≠ [])
    (hchain : List.Chain' (fun a b => a.1 ≤ b.1 ∧ b.1 < a.1 + d) evs) :
    ∃ lastT lastP, evs.getLast? = some (lastT, lastP) ∧
      runScrolls d pos0 evs = [(lastT + d, lastP)] ∧ lastT < lastT + d := by
  cases evs with
  | nil => exact absurd rfl hne
  | cons e rest =>
    obtain ⟨t0, p0⟩ := e
    have hchain2 : List.Chain (fun a b => a.1 ≤ b.1 ∧ b.1 < a.1 + d)
        (t0, p0) rest := hchain
    have h0 : scrollSim d ((t0, p0) :: rest) none pos0 []
        = scrollSim d rest (some (t0 + d)) p0 [] := by
      simp only [scrollSim]
    refine ⟨(rest.getLastD (t0, p0)).1, (rest.getLastD (t0, p0)).2, ?_, ?_, by omega⟩
    · rw [List.getLast?_cons, ← List.getLastD_eq_getLast?]
    · unfold runScrolls
      rw [h0, scrollSim_quiet d rest t0 p0 [] hchain2]
      simp

/-- Witness for C6: three scroll events at 0ms, 10ms, 20ms (gaps below the
50ms default debounce) produce a single recomputation at 70ms with the
final scroll position 9. -/
theorem debounce_single_fire_w :
    runScrolls 50 0 [(0, (0 : ℚ)), (10, 5), (20, 9)] = [(70, 9)] := by
  obtain ⟨lastT, lastP, hlast, hrun, _⟩ :=
    debounce_single_fire 50 (by norm_num) 0 [(0, (0 : ℚ)), (10, 5), (20, 9)]
      (by simp) (by simp [List.chain'_cons])
  have hconc : ([(0, (0 : ℚ)), (10, 5), (20, 9)] : List (Nat × ℚ)).getLast?
      = some (20, 9) := rfl
  rw [hconc] at hlast
  injection hlast with h4
  injection h4 with hT hP
  rw [← hT, ← hP] at hrun
  norm_num at hrun
  exact hrun

theorem lookupF_not_mem (l : List (String × JVal)) (k : String)
    (h : k ∉ l.map Prod.fst) : lookupF l k = .undef := by
  induction l with
  | nil => rfl
  | cons e rest ih =>
    obtain ⟨k2, v⟩ := e
    simp only [List.map_cons, List.mem_cons] at h
    push_neg at h
    simp only [lookupF]
    rw [if_neg (fun hk => h.1 hk.symm)]
    exact ih h.2

theorem lookupF_setField_self (res : List (String × JVal)) (k : String)
    (v : JVal) : lookupF (setField res k v) k = v := by
  induction res with
  | nil => simp [setField, lookupF]
  | cons e rest ih =>
    obtain ⟨k2, w⟩ := e
    by_cases h : k2 = k
    · simp [setField, h, lookupF]
    · simp only [setField]
      rw [if_neg h]
      simp only [lookupF]
      rw [if_neg h]
      exact ih

theorem lookupF_setField_ne (res : List (String × JVal)) (k k2 : String)
    (v : JVal) (h : k2 ≠ k) :
    lookupF (setField res k2 v) k = lookupF res k := by
  induction res with
  | nil => simp [setField, lookupF, h]
  | cons e rest ih =>
    obtain ⟨k3, w⟩ := e
    by_cases h3 : k3 = k2
    · subst h3
      simp only [setField, if_pos rfl]
      simp only [lookupF]
      rw [if_neg h, if_neg h]
    · simp only [setField]
      rw [if_neg h3]
      simp only [lookupF]
      by_cases h4 : k3 = k
      · rw [if_pos h4, if_pos h4]
      · rw [if_neg h4, if_neg h4]
        exact ih

theorem mergeFields_lookup (tf : List (String × JVal)) (k : String) :
    ∀ (sf res : List (String × JVal)), (sf.map Prod.fst).Nodup →
      (lookupF sf k = .undef →
        lookupF (mergeFields tf res sf) k = lookupF res k) ∧
      (∀ o, lookupF sf k = .jobj o →
        lookupF (mergeFields tf res sf) k
          = .jobj (mergeFields (fieldsOfV (lookupF tf k))
              (fieldsOfV (lookupF tf k)) o)) ∧
      (∀ v, lookupF sf k = v → v ≠ .undef → (∀ o, v ≠ .jobj o) →
        lookupF (mergeFields tf res sf) k = v) := by
  intro sf
  induction sf with
  | nil =>
    intro res _
    refine ⟨fun _ => by simp only [mergeFields], ?_, ?_⟩
    · intro o ho
      exact absurd ho (fun hh => JVal.noConfusion hh)
    · intro v hv hne _
      exact absurd hv.symm hne
  | cons e rest ih =>
    obtain ⟨k2, v2⟩ := e
    intro res hnd
    simp only [List.map_cons, List.nodup_cons] at hnd
    obtain ⟨hk2, hnd2⟩ := hnd
    by_cases hkk : k2 = k
    · subst hkk
      have hrest : lookupF rest k2 = .undef := lookupF_not_mem rest k2 hk2
      have hlk : lookupF ((k2, v2) :: rest) k2 = v2 := by
        simp [lookupF]
      cases v2 with
      | undef =>
        refine ⟨?_, ?_, ?_⟩
        · intro _
          simp only [mergeFields]
          exact (ih res hnd2).1 hrest
        · intro o ho
          rw [hlk] at ho
          exact absurd ho (fun hh => JVal.noConfusion hh)
        · intro v hv hne _
          rw [hlk] at hv
          exact absurd hv.symm hne
      | jobj o2 =>
        refine ⟨?_, ?_, ?_⟩
        · intro hv
          rw [hlk] at hv
          exact absurd hv (fun hh => JVal.noConfusion hh)
        · intro o ho
          rw [hlk] at ho
          injection ho with ho2
          subst ho2
          simp only [mergeFields]
          have h1 := (ih (setField res k2
            (.jobj (mergeFields (fieldsOfV (lookupF tf k2))
              (fieldsOfV (lookupF tf k2)) o2))) hnd2).1 hrest
          rw [h1]
          exact lookupF_setField_self res k2 _
        · intro v hv hne hno
          rw [hlk] at hv
          exact absurd hv.symm (hno o2)
      | jnull =>
        refine ⟨?_, ?_, ?_⟩
        · intro hv
          rw [hlk] at hv
          exact absurd hv (fun hh => JVal.noConfusion hh)
        · intro o ho
          rw [hlk] at ho
          exact absurd ho (fun hh => JVal.noConfusion hh)
        · intro v hv hne hno
          rw [hlk] at hv
          subst hv
          simp only [mergeFields]
          have h1 := (ih (setField res k2 .jnull) hnd2).1 hrest
          rw [h1]
          exact lookupF_setField_self res k2 _
      | jbool b =>
        refine ⟨?_, ?_, ?_⟩
        · intro hv
          rw [hlk] at hv
          exact absurd hv (fun hh => JVal.noConfusion hh)
        · intro o ho
          rw [hlk] at ho
          exact absurd ho (fun hh => JVal.noConfusion hh)
        · intro v hv hne hno
          rw [hlk] at hv
          subst hv
          simp only [mergeFields]
          have h1 := (ih (setField res k2 (.jbool b)) hnd2).1 hrest
          rw [h1]
          exact lookupF_setField_self res k2 _
      | jnum q =>
        refine ⟨?_, ?_, ?_⟩
        · intro hv
          rw [hlk] at hv
          exact absurd hv (fun hh => JVal.noConfusion hh)
        · intro o ho
          rw [hlk] at ho
          exact absurd ho (fun hh => JVal.noConfusion hh)
        · intro v hv hne hno
          rw [hlk] at hv
          subst hv
          simp only [mergeFields]
          have h1 := (ih (setField res k2 (.jnum q)) hnd2).1 hrest
          rw [h1]
          exact lookupF_setField_self res k2 _
      | jstr s =>
        refine ⟨?_, ?_, ?_⟩
        · intro hv
          rw [hlk] at hv
          exact absurd hv (fun hh => JVal.noConfusion hh)
        · intro o ho
          rw [hlk] at ho
          exact absurd ho (fun hh => JVal.noConfusion hh)
        · intro v hv hne hno
          rw [hlk] at hv
          subst hv
          simp only [mergeFields]
          have h1 := (ih (setField res k2 (.jstr s)) hnd2).1 hrest
          rw [h1]
          exact lookupF_setField_self res k2 _
      | jarr a =>
        refine ⟨?_, ?_, ?_⟩
        · intro hv
          rw [hlk] at hv
          exact absurd hv (fun hh => JVal.noConfusion hh)
        · intro o ho
          rw [hlk] at ho
          exact absurd ho (fun hh => JVal.noConfusion hh)
        · intro v hv hne hno
          rw [hlk] at hv
          subst hv
          simp only [mergeFields]
          have h1 := (ih (setField res k2 (.jarr a)) hnd2).1 hrest
          rw [h1]
          exact lookupF_setField_self res k2 _
    · have hlk : lookupF ((k2, v2) :: rest) k = lookupF rest k := by
        simp only [lookupF]
        rw [if_neg hkk]
      have hstep : ∃ res2, mergeFields tf res ((k2, v2) :: rest)
          = mergeFields tf res2 rest ∧ lookupF res2 k = lookupF res k := by
        cases v2 with
        | undef => exact ⟨res, by simp only [mergeFields], rfl⟩
        | jobj o =>
          exact ⟨setField res k2 (.jobj (mergeFields (fieldsOfV (lookupF tf k2))
              (fieldsOfV (lookupF tf k2)) o)),
            by simp only [mergeFields], lookupF_setField_ne res k k2 _ hkk⟩
        | jnull =>
          exact ⟨setField res k2 .jnull,
            by simp only [mergeFields], lookupF_setField_ne res k k2 _ hkk⟩
        | jbool b =>
          exact ⟨setField res k2 (.jbool b),
            by simp only [mergeFields], lookupF_setField_ne res k k2 _ hkk⟩
        | jnum q =>
          exact ⟨setField res k2 (.jnum q),
            by simp only [mergeFields], lookupF_setField_ne res k k2 _ hkk⟩
        | jstr s =>
          exact ⟨setField res k2 (.jstr s),
            by simp only [mergeFields], lookupF_setField_ne res k k2 _ hkk⟩
        | jarr a =>
          exact ⟨setField res k2 (.jarr a),
            by simp only [mergeFields], lookupF_setField_ne res k k2 _ hkk⟩
      obtain ⟨res2, hs1, hs2⟩ := hstep
      rw [hlk, hs1]
      obtain ⟨i1, i2, i3⟩ := ih res2 hnd2
      refine ⟨?_, i2, i3⟩
      intro hv
      rw [i1 hv]
      exact hs2

/-- C8: merging a partial override onto a defaults object takes the
default for every field left `undefined` in the override, takes the
override for every explicitly set field — including falsy values such as
`false`, `0` and `""`, and including arrays, which are assigned rather
than merged — and recursively deep-merges nested (non-array, non-null)
object fields; `toCssValue` renders numbers with a `px` suffix, passes
strings through verbatim, and falls back to the default on `undefined`. -/
theorem config_merge_spec (tf sf : List (String × JVal)) (k : String)
    (hnd : (sf.map Prod.fst).Nodup) :
    (lookupF sf k = JVal.undef →
      lookupF (fieldsOfV (mergeDeep (JVal.jobj tf) (JVal.jobj sf))) k
        = lookupF tf k) ∧
    (∀ v, lookupF sf k = v → v ≠ JVal.undef → (∀ o, v ≠ JVal.jobj o) →
      lookupF (fieldsOfV (mergeDeep (JVal.jobj tf) (JVal.jobj sf))) k = v) ∧
    (∀ o, lookupF sf k = JVal.jobj o →
      lookupF (fieldsOfV (mergeDeep (JVal.jobj tf) (JVal.jobj sf))) k
        = mergeDeep (lookupF tf k) (JVal.jobj o)) ∧
    (∀ q d, toCssValue (some (Sum.inl q)) d = toString q ++ "px") ∧
    (∀ s d, toCssValue (some (Sum.inr s)) d = s) ∧
    (∀ d, toCssValue none d = d) := by
  obtain ⟨m1, m2, m3⟩ := mergeFields_lookup tf k sf tf hnd
  have hfv : fieldsOfV (mergeDeep (JVal.jobj tf) (JVal.jobj sf))
      = mergeFields tf tf sf := rfl
  rw [hfv]
  refine ⟨m1, m3, ?_, fun q d => rfl, fun s d => rfl, fun d => rfl⟩
  intro o ho
  rw [m2 o ho]
  rfl

/-- Witness for C8: the falsy override `"b" = false` beats the default
`true`, and `toCssValue` renders the number `12` with a `px` suffix. -/
theorem config_merge_spec_w :
    lookupF (fieldsOfV (mergeDeep (JVal.jobj exampleTargetF)
      (JVal.jobj exampleSourceF))) "b" = JVal.jbool false ∧
    toCssValue (some (Sum.inl (12 : ℚ))) "0" = toString (12 : ℚ) ++ "px" :=
  ⟨(config_merge_spec exampleTargetF exampleSourceF "b"
      (by simp [exampleSourceF])).2.1
      (JVal.jbool false) rfl (fun hh => JVal.noConfusion hh)
      (fun o hh => JVal.noConfusion hh),
   (config_merge_spec exampleTargetF exampleSourceF "b"
      (by simp [exampleSourceF])).2.2.2.1 12 "0"⟩
